import Mathlib

/-!
# DCMixtureFactor: a shallow embedding

Embedding of `gtsam/hybrid/DCMixtureFactor.h`.

* `double` is an arbitrary field `R` together with the two `<cmath>` items the
  class uses (`log`, `M_PI`), so every general theorem holds in exact
  arithmetic for any interpretation of `log`; `realMath` is the interpretation
  by the real logarithm. Where `log` meets an argument that is not positive,
  the functions are evaluated in `Double R`, which keeps the infinities and NaN.
* C++ exceptions and out-of-bounds reads are values of `Except DCError`.
* The component type `NonlinearFactorType` is a type parameter `F`; what the
  class calls on it is collected in `NonlinearFactorType`.
-/

set_option linter.unusedVariables false

namespace gtsam

/-! ## Keys and discrete assignments -/

/-- A variable identifier (`gtsam::Key`). -/
abbrev Key := Nat

/-- Ordered continuous keys (`KeyVector`). -/
abbrev KeyVector := List Key

/-- A discrete key: identifier (`first`) and cardinality (`second`). -/
abbrev DiscreteKey := Key × Nat

/-- A vector of discrete keys (`DiscreteKeys`). -/
abbrev DiscreteKeys := List DiscreteKey

/-- A discrete assignment (`DiscreteValues`, a map from key to value), as an
association list read by first match. -/
abbrev DiscreteValues := List (Key × Nat)

/-- The ways an operation of the class can fail to return. -/
inductive DCError where
  /-- `DiscreteValues::at` on a key without a value (`std::out_of_range`). -/
  | missingDiscreteKey
  /-- The selector has no leaf for the assignment. -/
  | undefinedAssignment
  /-- A read past the end of a sequence (undefined behaviour in the source). -/
  | indexOutOfRange
  /-- The failure the specification names for a singular information matrix;
  no path of the source raises it. -/
  | singularInformation
  deriving DecidableEq, Repr

/-- The call `discreteVals.at(key)`. -/
def DiscreteValues.atKey (discreteVals : DiscreteValues) (key : Key) : Except DCError Nat :=
  match discreteVals.lookup key with
  | some v => .ok v
  | none => .error .missingDiscreteKey

/-! ## Scalars and matrices -/

/-- The items of `<cmath>` used by the class: `log` and `M_PI`. -/
structure CMath (R : Type) where
  log : R → R
  pi : R

/-- Interpretation of `log` and `M_PI` in the real numbers. -/
noncomputable def realMath : CMath ℝ := ⟨Real.log, Real.pi⟩

/-- A dynamically sized square matrix (`gtsam::Matrix` holding an information matrix). -/
structure Mat (R : Type) where
  n : Nat
  entries : Matrix (Fin n) (Fin n) R

/-- The default-constructed matrix `Matrix infoMat;`: zero rows, zero columns. -/
def Mat.empty {R : Type} : Mat R := ⟨0, fun i _ => i.elim0⟩

/-- The call `infoMat.determinant()`; the determinant of the empty matrix is 1. -/
def Mat.determinant {R : Type} [CommRing R] (M : Mat R) : R := M.entries.det

/-- The one-by-one matrix with entry `r`. -/
def Mat.scalar {R : Type} (r : R) : Mat R := ⟨1, fun _ _ => r⟩

/-! ## Component factors -/

/-- What the dynamic cast of `noiseModelFactor->noiseModel()` to
`noiseModel::Gaussian` finds: a Gaussian model with its information matrix, or
a model of another kind. -/
inductive NoiseModel (R : Type) where
  | gaussian (information : Mat R)
  | nonGaussian

/-- What `DCMixtureFactor` calls on its template parameter `NonlinearFactorType`
(`F`), on continuous values (`V`) and on linear factors (`G`). -/
structure NonlinearFactorType (F V G R : Type) where
  /-- The call `factor.error(values)`. -/
  error : F → V → R
  /-- The call `factor.dim()`. -/
  dim : F → Nat
  /-- The call `factor.linearize(values)`. -/
  linearize : F → V → G
  /-- The dynamic cast to `NoiseModelFactor` followed by `noiseModel()`:
  `none` when the cast yields a null pointer. -/
  noiseModel : F → Option (NoiseModel R)
  /-- The call `a.equals(b, tol)`. -/
  equals : F → F → R → Bool
  /-- The default value of the `tol` parameter of the component's `equals`
  (`double tol = 1e-9` in the component declarations). -/
  equalsTol : R
  /-- The call `gaussianFactor->information()`. -/
  information : G → Mat R

/-! ## The factor selector -/

/-- Modelled from the spec: the Factor Selector (`DecisionTree<Key, Y>`, whose
declaration is not among the sources). It maps every complete assignment over
its discrete keys to one leaf; `leaves` lists the leaves in the canonical
traversal order, first key most significant. -/
structure DecisionTree (Y : Type) where
  labels : DiscreteKeys
  leaves : List Y

/-- Modelled from the spec: the position, in traversal order, of the leaf of an
assignment; undefined when the assignment does not cover a key or holds a value
outside a key's cardinality. -/
def DecisionTree.leafIndex (discreteVals : DiscreteValues) :
    DiscreteKeys → Nat → Except DCError Nat
  | [], acc => .ok acc
  | (key, card) :: rest, acc =>
    match discreteVals.lookup key with
    | none => .error .undefinedAssignment
    | some v =>
      if v < card then DecisionTree.leafIndex discreteVals rest (acc * card + v)
      else .error .undefinedAssignment

/-- Modelled from the spec: `size()`, the count of leaves. -/
def DecisionTree.size {Y : Type} (t : DecisionTree Y) : Nat := t.leaves.length

/-- Modelled from the spec: `factors_[i]`, the `i`-th leaf in traversal order. -/
def DecisionTree.get {Y : Type} (t : DecisionTree Y) (i : Nat) : Except DCError Y :=
  match t.leaves[i]? with
  | some y => .ok y
  | none => .error .indexOutOfRange

/-- Modelled from the spec: `factors_(discreteVals)`, the `select` of the
Factor Selector. -/
def DecisionTree.select {Y : Type} (t : DecisionTree Y) (discreteVals : DiscreteValues) :
    Except DCError Y :=
  match DecisionTree.leafIndex discreteVals t.labels 0 with
  | .error e => .error e
  | .ok i =>
    match t.leaves[i]? with
    | some y => .ok y
    | none => .error .undefinedAssignment

/-! ## The mixture factor -/

/-- The state of a `DCMixtureFactor`: `keys_` and `discreteKeys_` of the base
`DCFactor`, the single discrete key `dk_` that both `linearize` overloads read
(its declaration is not among the sources), the selector `factors_` and the
flag `normalized_`. -/
structure DCMixtureFactor (F : Type) where
  keys_ : KeyVector
  discreteKeys_ : DiscreteKeys
  dk_ : DiscreteKey
  factors_ : DecisionTree F
  normalized_ : Bool

/-- Modelled from the spec: the Hybrid Linear Mixture
(`DCGaussianMixtureFactor`, whose declaration is not among the sources), as
built by `DCGaussianMixtureFactor(keys_, dk_, linearized_factors)`. -/
structure DCGaussianMixtureFactor (G : Type) where
  keys_ : KeyVector
  dk_ : DiscreteKey
  factors_ : List G

/-- Modelled from the spec: the linear factor a Hybrid Linear Mixture stores
under an assignment. The mixture is keyed by the same discrete keys and
assignments as the selector it was linearized from (`discreteKeys`), one linear
factor per assignment, each tagged with its originating assignment: the factor
under an assignment is the entry at the position of that assignment's leaf. -/
def DCGaussianMixtureFactor.select {G : Type} (g : DCGaussianMixtureFactor G)
    (discreteKeys : DiscreteKeys) (discreteVals : DiscreteValues) : Except DCError G :=
  DecisionTree.select ⟨discreteKeys, g.factors_⟩ discreteVals

/-- The dynamic type of the argument of `equals`: a mixture factor, or a
`DCFactor` of another class. -/
inductive DCFactor (F : Type) where
  | mixture (f : DCMixtureFactor F)
  | otherClass

section Operations

variable {F V G R : Type} [Field R]

/-- The value of the local `infoMat` when `nonlinearFactorLogNormalizingConstant`
reaches its `return`. -/
def infoMat (C : NonlinearFactorType F V G R) (factor : F) (values : V) : Mat R :=
  match C.noiseModel factor with
  | some (.gaussian information) => information
  | some .nonGaussian => C.information (C.linearize factor values)
  | none => Mat.empty

/-- `DCMixtureFactor::nonlinearFactorLogNormalizingConstant`. -/
def nonlinearFactorLogNormalizingConstant (C : NonlinearFactorType F V G R) (M : CMath R)
    (factor : F) (values : V) : R :=
  -((C.dim factor : R) * M.log (2 * M.pi) / 2) -
    (M.log (infoMat C factor values).determinant / 2)

/-- `DCMixtureFactor::error`. The body indexes `factors_[assignment]` and
declares no `assignment`: the index is a parameter here, the one thing the
source leaves open. -/
def DCMixtureFactor.error (C : NonlinearFactorType F V G R) (M : CMath R)
    (m : DCMixtureFactor F) (assignment : Nat) (continuousVals : V)
    (discreteVals : DiscreteValues) : Except DCError R := do
  let factor ← m.factors_.select discreteVals
  let factorError := C.error factor continuousVals
  if m.normalized_ then return factorError
  let component ← m.factors_.get assignment
  return factorError + nonlinearFactorLogNormalizingConstant C M component continuousVals

/-- `DCMixtureFactor::dim`. -/
def DCMixtureFactor.dim (C : NonlinearFactorType F V G R) (m : DCMixtureFactor F) :
    Except DCError Nat :=
  if m.factors_.size > 0 then do
    let f ← m.factors_.get 0
    return C.dim f
  else .ok 0

/-- `DCMixtureFactor::linearize(continuousVals, discreteVals)`. -/
def DCMixtureFactor.linearize (C : NonlinearFactorType F V G R) (m : DCMixtureFactor F)
    (continuousVals : V) (discreteVals : DiscreteValues) : Except DCError G := do
  let assignment ← DiscreteValues.atKey discreteVals m.dk_.1
  let component ← m.factors_.get assignment
  return C.linearize component continuousVals

/-- The loop of `linearize(continuousVals)`: `remaining` iterations are left,
the index is `i`, and `linearized_factors` holds what was pushed so far. -/
def linearizeLoop (C : NonlinearFactorType F V G R) (factors : DecisionTree F)
    (continuousVals : V) : Nat → Nat → List G → Except DCError (List G)
  | 0, _, linearized_factors => .ok linearized_factors
  | remaining + 1, i, linearized_factors => do
    let component ← factors.get i
    let linearized := C.linearize component continuousVals
    linearizeLoop C factors continuousVals remaining (i + 1) (linearized_factors ++ [linearized])

/-- `DCMixtureFactor::linearize(continuousVals)`. -/
def DCMixtureFactor.linearizeAll (C : NonlinearFactorType F V G R) (m : DCMixtureFactor F)
    (continuousVals : V) : Except DCError (DCGaussianMixtureFactor G) := do
  let linearized_factors ← linearizeLoop C m.factors_ continuousVals m.factors_.size 0 []
  return ⟨m.keys_, m.dk_, linearized_factors⟩

/-- The loop of `equals` over the components: `false` as soon as a pair of
components at the same index is not equal; the component comparison is called
without a tolerance, so with its default. -/
def equalsLoop (C : NonlinearFactorType F V G R) (factors others : DecisionTree F) :
    Nat → Nat → Except DCError Bool
  | 0, _ => .ok true
  | remaining + 1, i => do
    let a ← factors.get i
    let b ← others.get i
    if !C.equals a b C.equalsTol then return false
    equalsLoop C factors others remaining (i + 1)

/-- The three-iterator `std::equal(first1, last1, first2)`: walks the first
range and reads the second at the same positions, past its end when it is the
shorter one. -/
def stdEqual : KeyVector → KeyVector → Except DCError Bool
  | [], _ => .ok true
  | _ :: _, [] => .error .indexOutOfRange
  | a :: as, b :: bs => if a = b then stdEqual as bs else .ok false

/-- `DCMixtureFactor::equals`. -/
def DCMixtureFactor.equals (C : NonlinearFactorType F V G R) (m : DCMixtureFactor F)
    (other : DCFactor F) (tol : R) : Except DCError Bool :=
  match other with
  | .otherClass => .ok false
  | .mixture f =>
    if m.factors_.size ≠ f.factors_.size then .ok false
    else do
      let same ← equalsLoop C m.factors_ f.factors_ m.factors_.size 0
      if !same then return false
      let keysEqual ← stdEqual m.keys_ f.keys_
      return keysEqual && (m.discreteKeys_ == f.discreteKeys_) && (m.normalized_ == f.normalized_)

/-- `DCMixtureFactor::operator=`: the state of `*this` after the body.
`Base::operator=(rhs)` copies the members the class does not declare itself
(`keys_`, `discreteKeys_`, `dk_`); the body then copies `factors_`, and assigns
nothing to `normalized_`. -/
def DCMixtureFactor.assign (lhs rhs : DCMixtureFactor F) : DCMixtureFactor F :=
  { lhs with
    keys_ := rhs.keys_
    discreteKeys_ := rhs.discreteKeys_
    dk_ := rhs.dk_
    factors_ := rhs.factors_ }

end Operations

/-! ## Doubles with their special values

Where `log` is taken at an argument that is not positive, the result leaves
the finite numbers. `Double R` keeps the infinities and NaN; finite results are
exact. The definitions of the namespace `IEEE` are the same source functions
evaluated in `Double R`; where every `log` has a positive argument they agree
with the ones above. -/

/-- A `double`: a finite number, an infinity, or NaN. -/
inductive Double (R : Type) where
  | finite (r : R)
  | posInf
  | negInf
  | nan

section Doubles

variable {F V G R : Type} [LinearOrderedField R]

/-- The call `log(x)` of `<cmath>`: `-inf` at zero, NaN at a negative number
and at `-inf`. -/
def Double.log (M : CMath R) : Double R → Double R
  | .finite r => if 0 < r then .finite (M.log r) else if r = 0 then .negInf else .nan
  | .posInf => .posInf
  | .negInf => .nan
  | .nan => .nan

/-- Unary minus. -/
def Double.neg : Double R → Double R
  | .finite r => .finite (-r)
  | .posInf => .negInf
  | .negInf => .posInf
  | .nan => .nan

/-- The sum `x + y`; infinities of opposite sign give NaN. -/
def Double.add : Double R → Double R → Double R
  | .nan, _ => .nan
  | _, .nan => .nan
  | .finite a, .finite b => .finite (a + b)
  | .finite _, .posInf => .posInf
  | .finite _, .negInf => .negInf
  | .posInf, .finite _ => .posInf
  | .negInf, .finite _ => .negInf
  | .posInf, .posInf => .posInf
  | .negInf, .negInf => .negInf
  | .posInf, .negInf => .nan
  | .negInf, .posInf => .nan

/-- The difference `x - y`. -/
def Double.sub (x y : Double R) : Double R := Double.add x (Double.neg y)

/-- The quotient `x / 2.0`. -/
def Double.half : Double R → Double R
  | .finite r => .finite (r / 2)
  | .posInf => .posInf
  | .negInf => .negInf
  | .nan => .nan

/-- The product `n * x` of a `size_t` converted to `double` with `x`; zero
times an infinity is NaN. -/
def Double.mulNat (n : Nat) : Double R → Double R
  | .finite r => .finite ((n : R) * r)
  | .posInf => if n = 0 then .nan else .posInf
  | .negInf => if n = 0 then .nan else .negInf
  | .nan => .nan

/-- `DCMixtureFactor::nonlinearFactorLogNormalizingConstant`, evaluated in
doubles with their special values. -/
def IEEE.nonlinearFactorLogNormalizingConstant (C : NonlinearFactorType F V G R) (M : CMath R)
    (factor : F) (values : V) : Double R :=
  Double.sub
    (Double.neg (Double.half (Double.mulNat (C.dim factor)
      (Double.log M (.finite (2 * M.pi))))))
    (Double.half (Double.log M (.finite (infoMat C factor values).determinant)))

/-- `DCMixtureFactor::error`, evaluated in doubles with their special values;
`assignment` is the index the body does not declare. -/
def IEEE.error (C : NonlinearFactorType F V G R) (M : CMath R)
    (m : DCMixtureFactor F) (assignment : Nat) (continuousVals : V)
    (discreteVals : DiscreteValues) : Except DCError (Double R) := do
  let factor ← m.factors_.select discreteVals
  let factorError : Double R := .finite (C.error factor continuousVals)
  if m.normalized_ then return factorError
  let component ← m.factors_.get assignment
  return Double.add factorError
    (IEEE.nonlinearFactorLogNormalizingConstant C M component continuousVals)

end Doubles

/-! ## Concrete components, for evaluating the operations on explicit inputs -/

/-- A linear factor that records its information matrix and the point of
linearization. -/
structure GaussianFactor (R : Type) where
  information : Mat R
  point : R

/-- A one-dimensional component on one continuous value: a measurement, the
outcome of the noise-model casts, and the information of its linearization. -/
structure PriorFactor (R : Type) where
  measured : R
  noise : Option (NoiseModel R)
  hessian : R

/-- The operations of `PriorFactor`: squared residual as error, closeness of
the measurements as equality, default tolerance `1e-9`. -/
def priorOps (R : Type) [LinearOrderedField R] :
    NonlinearFactorType (PriorFactor R) R (GaussianFactor R) R where
  error f x := (x - f.measured) ^ 2 / 2
  dim _ := 1
  linearize f x := ⟨Mat.scalar f.hessian, x⟩
  noiseModel f := f.noise
  equals a b tol := decide (|a.measured - b.measured| ≤ tol)
  equalsTol := 1 / 1000000000
  information g := g.information

/-- A component with a Gaussian noise model of information `info`. -/
def gaussianPrior {R : Type} (measured info : R) : PriorFactor R :=
  ⟨measured, some (.gaussian (Mat.scalar info)), info⟩

/-- A component that is not a `NoiseModelFactor`; its linearization has
information `hessian`. -/
def bareFactor {R : Type} (measured hessian : R) : PriorFactor R :=
  ⟨measured, none, hessian⟩

/-- A mixture over the two binary discrete keys 10 and 11, with four Gaussian
components (measurements 0, 1, 2, 3 and informations 1, 2, 3, 4) in traversal
order, not normalized; `dk` is the single key the class indexes by. -/
def twoKeyMixture (R : Type) [Field R] (dk : DiscreteKey) : DCMixtureFactor (PriorFactor R) where
  keys_ := [0]
  discreteKeys_ := [(10, 2), (11, 2)]
  dk_ := dk
  factors_ := ⟨[(10, 2), (11, 2)],
    [gaussianPrior 0 1, gaussianPrior 1 2, gaussianPrior 2 3, gaussianPrior 3 4]⟩
  normalized_ := false

/-- A mixture over the binary discrete key 10 with two Gaussian components of
informations `info0` and `info1` and measurements `z0` and `z1`, on the
continuous keys `keys`. -/
def pairMixture {R : Type} (keys : KeyVector) (z0 info0 z1 info1 : R) (normalized : Bool) :
    DCMixtureFactor (PriorFactor R) where
  keys_ := keys
  discreteKeys_ := [(10, 2)]
  dk_ := (10, 2)
  factors_ := ⟨[(10, 2)], [gaussianPrior z0 info0, gaussianPrior z1 info1]⟩
  normalized_ := normalized

/-! ## Basic facts -/

section Facts

variable {F V G R : Type}

@[simp] theorem Mat.determinant_scalar [CommRing R] (r : R) :
    (Mat.scalar r).determinant = r := by
  simp [Mat.determinant, Mat.scalar, Matrix.det_unique]

@[simp] theorem Mat.determinant_empty [CommRing R] :
    (Mat.empty : Mat R).determinant = 1 := by
  simp [Mat.determinant, Mat.empty]

theorem infoMat_gaussian [Field R] (C : NonlinearFactorType F V G R) (factor : F)
    (values : V) (info : Mat R) (h : C.noiseModel factor = some (.gaussian info)) :
    infoMat C factor values = info := by
  simp [infoMat, h]

theorem infoMat_nonGaussian [Field R] (C : NonlinearFactorType F V G R) (factor : F)
    (values : V) (h : C.noiseModel factor = some .nonGaussian) :
    infoMat C factor values = C.information (C.linearize factor values) := by
  simp [infoMat, h]

theorem infoMat_noNoiseModel [Field R] (C : NonlinearFactorType F V G R) (factor : F)
    (values : V) (h : C.noiseModel factor = none) :
    infoMat C factor values = Mat.empty := by
  simp [infoMat, h]

/-- With the flag unset, `error` returns the error of the selected component
plus the constant of the component at the index `assignment`. -/
theorem error_unnormalized [Field R] (C : NonlinearFactorType F V G R) (M : CMath R)
    (m : DCMixtureFactor F) (assignment : Nat) (x : V) (a : DiscreteValues) (f f' : F)
    (hn : m.normalized_ = false) (hsel : m.factors_.select a = .ok f)
    (hget : m.factors_.get assignment = .ok f') :
    DCMixtureFactor.error C M m assignment x a =
      .ok (C.error f x + nonlinearFactorLogNormalizingConstant C M f' x) := by
  simp [DCMixtureFactor.error, hsel, hn, hget, bind, Except.bind, pure, Except.pure]

/-- With the flag unset and no component at the index `assignment`, `error`
returns nothing. -/
theorem error_unnormalized_out_of_range [Field R] (C : NonlinearFactorType F V G R)
    (M : CMath R) (m : DCMixtureFactor F) (assignment : Nat) (x : V) (a : DiscreteValues)
    (f : F) (hn : m.normalized_ = false) (hsel : m.factors_.select a = .ok f)
    (hget : m.factors_.get assignment = .error .indexOutOfRange) :
    DCMixtureFactor.error C M m assignment x a = .error .indexOutOfRange := by
  simp [DCMixtureFactor.error, hsel, hn, hget, bind, Except.bind, pure, Except.pure]

/-- With the flag set, `error` returns the error of the selected component,
whatever the index `assignment` is. -/
theorem error_normalized [Field R] (C : NonlinearFactorType F V G R) (M : CMath R)
    (m : DCMixtureFactor F) (assignment : Nat) (x : V) (a : DiscreteValues) (f : F)
    (hn : m.normalized_ = true) (hsel : m.factors_.select a = .ok f) :
    DCMixtureFactor.error C M m assignment x a = .ok (C.error f x) := by
  simp [DCMixtureFactor.error, hsel, hn, bind, Except.bind, pure, Except.pure]

/-- When the selection fails, `error` fails with the same error. -/
theorem error_of_select_error [Field R] (C : NonlinearFactorType F V G R) (M : CMath R)
    (m : DCMixtureFactor F) (assignment : Nat) (x : V) (a : DiscreteValues) (e : DCError)
    (hsel : m.factors_.select a = .error e) :
    DCMixtureFactor.error C M m assignment x a = .error e := by
  simp [DCMixtureFactor.error, hsel, bind, Except.bind]

/-! ### The selector -/

theorem atKey_eq_ok_iff (a : DiscreteValues) (k : Key) (v : Nat) :
    DiscreteValues.atKey a k = .ok v ↔ a.lookup k = some v := by
  unfold DiscreteValues.atKey
  cases h : List.lookup k a <;> simp

theorem atKey_of_lookup_none (a : DiscreteValues) (k : Key) (h : a.lookup k = none) :
    DiscreteValues.atKey a k = .error .missingDiscreteKey := by
  simp [DiscreteValues.atKey, h]

theorem DecisionTree.get_of_lt {Y : Type} (t : DecisionTree Y) (i : Nat) (h : i < t.size) :
    t.get i = .ok (t.leaves.get ⟨i, h⟩) := by
  have h' : i < t.leaves.length := h
  simp [DecisionTree.get, List.getElem?_eq_getElem h']

theorem DecisionTree.get_eq_ok_iff {Y : Type} (t : DecisionTree Y) (i : Nat) (y : Y) :
    t.get i = .ok y ↔ t.leaves[i]? = some y := by
  unfold DecisionTree.get
  cases h : t.leaves[i]? <;> simp

/-- Over a single discrete key the selector returns the leaf at the position
given by the value of that key. -/
theorem DecisionTree.select_single {Y : Type} (dk : DiscreteKey) (leaves : List Y)
    (a : DiscreteValues) (v : Nat) (y : Y) (hat : a.lookup dk.1 = some v) (hcard : v < dk.2)
    (hleaf : leaves[v]? = some y) :
    DecisionTree.select ⟨[dk], leaves⟩ a = .ok y := by
  obtain ⟨k, card⟩ := dk
  simp only at hat hcard
  simp [DecisionTree.select, DecisionTree.leafIndex, hat, hcard, hleaf]

/-- The selector fails on an assignment that has no value for one of its keys. -/
theorem DecisionTree.leafIndex_of_lookup_none (a : DiscreteValues) (labels : DiscreteKeys)
    (dk : DiscreteKey) (hmem : dk ∈ labels) (hnone : a.lookup dk.1 = none) (acc : Nat) :
    DecisionTree.leafIndex a labels acc = .error .undefinedAssignment := by
  induction labels generalizing acc with
  | nil => cases hmem
  | cons head rest ih =>
    obtain ⟨k, card⟩ := head
    rcases List.mem_cons.mp hmem with rfl | hrest
    · simp only at hnone
      simp [DecisionTree.leafIndex, hnone]
    · unfold DecisionTree.leafIndex
      cases hk : List.lookup k a with
      | none => rfl
      | some v =>
        by_cases hv : v < card
        · simp only [hv, if_true]
          exact ih hrest _
        · simp [hv]

/-- An assignment the selector accepts gives every key of the selector a value
within its cardinality. -/
theorem DecisionTree.lookup_of_leafIndex_ok (a : DiscreteValues) (labels : DiscreteKeys)
    (dk : DiscreteKey) (hmem : dk ∈ labels) (acc i : Nat)
    (hok : DecisionTree.leafIndex a labels acc = .ok i) :
    ∃ v : Nat, a.lookup dk.1 = some v ∧ v < dk.2 := by
  induction labels generalizing acc with
  | nil => cases hmem
  | cons head rest ih =>
    obtain ⟨k, card⟩ := head
    unfold DecisionTree.leafIndex at hok
    cases hk : List.lookup k a with
    | none => simp [hk] at hok
    | some v =>
      by_cases hv : v < card
      · simp only [hk, hv, if_true] at hok
        rcases List.mem_cons.mp hmem with rfl | hrest
        · exact ⟨v, hk, hv⟩
        · exact ih hrest _ hok
      · simp [hk, hv] at hok

theorem DecisionTree.lookup_of_select_ok {Y : Type} (t : DecisionTree Y) (a : DiscreteValues)
    (dk : DiscreteKey) (hmem : dk ∈ t.labels) (y : Y) (hok : t.select a = .ok y) :
    ∃ v : Nat, a.lookup dk.1 = some v ∧ v < dk.2 := by
  unfold DecisionTree.select at hok
  cases hidx : DecisionTree.leafIndex a t.labels 0 with
  | error e => simp [hidx] at hok
  | ok i => exact DecisionTree.lookup_of_leafIndex_ok a t.labels dk hmem 0 i hidx

theorem DecisionTree.select_of_lookup_none {Y : Type} (t : DecisionTree Y) (a : DiscreteValues)
    (dk : DiscreteKey) (hmem : dk ∈ t.labels) (hnone : a.lookup dk.1 = none) :
    t.select a = .error .undefinedAssignment := by
  simp [DecisionTree.select, DecisionTree.leafIndex_of_lookup_none a t.labels dk hmem hnone 0]

/-! ### The loop of `linearize` -/

theorem linearizeLoop_eq [Field R] (C : NonlinearFactorType F V G R) (t : DecisionTree F)
    (x : V) (remaining i : Nat) (acc : List G) (h : i + remaining = t.size) :
    linearizeLoop C t x remaining i acc =
      .ok (acc ++ (t.leaves.drop i).map (fun f => C.linearize f x)) := by
  induction remaining generalizing i acc with
  | zero =>
    have hi : t.leaves.length ≤ i := by
      simp only [DecisionTree.size] at h
      omega
    simp [linearizeLoop, List.drop_of_length_le hi]
  | succ n ih =>
    have hi : i < t.leaves.length := by
      simp only [DecisionTree.size] at h
      omega
    have hget : t.get i = .ok (t.leaves.get ⟨i, hi⟩) := DecisionTree.get_of_lt t i hi
    have hdrop : t.leaves.drop i = t.leaves.get ⟨i, hi⟩ :: t.leaves.drop (i + 1) := by
      exact List.drop_eq_getElem_cons hi
    simp only [linearizeLoop, hget, bind, Except.bind]
    rw [ih (i + 1) _ (by omega), hdrop]
    simp only [List.map_cons, List.append_assoc, List.singleton_append]

theorem linearizeAll_eq [Field R] (C : NonlinearFactorType F V G R) (m : DCMixtureFactor F)
    (x : V) :
    DCMixtureFactor.linearizeAll C m x =
      .ok ⟨m.keys_, m.dk_, m.factors_.leaves.map (fun f => C.linearize f x)⟩ := by
  simp [DCMixtureFactor.linearizeAll, linearizeLoop_eq C m.factors_ x m.factors_.size 0 []
    (by simp), bind, Except.bind, pure, Except.pure]

theorem linearize_eq [Field R] (C : NonlinearFactorType F V G R) (m : DCMixtureFactor F)
    (x : V) (a : DiscreteValues) (i : Nat) (f : F)
    (hat : DiscreteValues.atKey a m.dk_.1 = .ok i) (hget : m.factors_.get i = .ok f) :
    DCMixtureFactor.linearize C m x a = .ok (C.linearize f x) := by
  simp [DCMixtureFactor.linearize, hat, hget, bind, Except.bind, pure, Except.pure]

/-- When the assignment has no value for `dk_`, `linearize(x, a)` fails on `at`. -/
theorem linearize_of_lookup_none [Field R] (C : NonlinearFactorType F V G R)
    (m : DCMixtureFactor F) (x : V) (a : DiscreteValues) (hnone : a.lookup m.dk_.1 = none) :
    DCMixtureFactor.linearize C m x a = .error .missingDiscreteKey := by
  simp [DCMixtureFactor.linearize, atKey_of_lookup_none a _ hnone, bind, Except.bind]

/-- When the assignment has no value for a key of the selector, `error` fails. -/
theorem error_of_lookup_none [Field R] (C : NonlinearFactorType F V G R) (M : CMath R)
    (m : DCMixtureFactor F) (assignment : Nat) (x : V) (a : DiscreteValues) (dk : DiscreteKey)
    (hmem : dk ∈ m.factors_.labels) (hnone : a.lookup dk.1 = none) :
    DCMixtureFactor.error C M m assignment x a = .error .undefinedAssignment :=
  error_of_select_error C M m assignment x a _
    (DecisionTree.select_of_lookup_none _ a dk hmem hnone)

/-- On a selector over a single key, when the index `assignment` is the value
the assignment gives that key, the component that `error` normalizes is the
selected one. -/
theorem error_single_key [Field R] (C : NonlinearFactorType F V G R) (M : CMath R)
    (m : DCMixtureFactor F) (x : V) (a : DiscreteValues) (dk : DiscreteKey) (v : Nat) (f : F)
    (hn : m.normalized_ = false) (hlabels : m.factors_.labels = [dk])
    (hat : a.lookup dk.1 = some v) (hcard : v < dk.2)
    (hleaf : m.factors_.leaves[v]? = some f) :
    DCMixtureFactor.error C M m v x a =
      .ok (C.error f x + nonlinearFactorLogNormalizingConstant C M f x) := by
  have hsel : m.factors_.select a = .ok f := by
    have h := DecisionTree.select_single dk m.factors_.leaves a v f hat hcard hleaf
    rw [← hlabels] at h
    exact h
  exact error_unnormalized C M m v x a f f hn hsel
    ((DecisionTree.get_eq_ok_iff _ v f).mpr hleaf)

/-! ### The comparisons of `equals` -/

theorem stdEqual_self (keys : KeyVector) : stdEqual keys keys = .ok true := by
  induction keys with
  | nil => rfl
  | cons k rest ih => simp [stdEqual, ih]

/-- The three-iterator comparison accepts every second range that starts with
the first one. -/
theorem stdEqual_append (keys extra : KeyVector) : stdEqual keys (keys ++ extra) = .ok true := by
  induction keys with
  | nil => cases extra <;> rfl
  | cons k rest ih => simp [stdEqual, ih]

theorem equalsLoop_self [Field R] (C : NonlinearFactorType F V G R) (t : DecisionTree F)
    (hself : ∀ f ∈ t.leaves, C.equals f f C.equalsTol = true) (remaining i : Nat)
    (h : i + remaining = t.size) : equalsLoop C t t remaining i = .ok true := by
  induction remaining generalizing i with
  | zero => rfl
  | succ n ih =>
    have hi : i < t.leaves.length := by
      simp only [DecisionTree.size] at h
      omega
    have hget : t.get i = .ok (t.leaves.get ⟨i, hi⟩) := DecisionTree.get_of_lt t i hi
    have heq : C.equals (t.leaves.get ⟨i, hi⟩) (t.leaves.get ⟨i, hi⟩) C.equalsTol = true :=
      hself _ (List.get_mem _ _ _)
    simp only [equalsLoop, hget, bind, Except.bind, heq]
    exact ih (i + 1) (by omega)

/-- A mixture equals itself, at every tolerance, when each component equals
itself within the default tolerance of the components. -/
theorem equals_self [Field R] (C : NonlinearFactorType F V G R) (m : DCMixtureFactor F)
    (tol : R) (hself : ∀ f ∈ m.factors_.leaves, C.equals f f C.equalsTol = true) :
    DCMixtureFactor.equals C m (.mixture m) tol = .ok true := by
  simp [DCMixtureFactor.equals, equalsLoop_self C m.factors_ hself m.factors_.size 0 (by simp),
    stdEqual_self, bind, Except.bind, pure, Except.pure]

/-- Mixtures with different component counts are reported unequal. -/
theorem equals_of_size_ne [Field R] (C : NonlinearFactorType F V G R)
    (m f : DCMixtureFactor F) (tol : R) (h : m.factors_.size ≠ f.factors_.size) :
    DCMixtureFactor.equals C m (.mixture f) tol = .ok false := by
  simp [DCMixtureFactor.equals, h]

/-- A factor of another class is reported unequal. -/
theorem equals_otherClass [Field R] (C : NonlinearFactorType F V G R)
    (m : DCMixtureFactor F) (tol : R) :
    DCMixtureFactor.equals C m .otherClass tol = .ok false := rfl

/-! ### Copy assignment -/

theorem assign_factors (lhs rhs : DCMixtureFactor F) :
    (lhs.assign rhs).factors_ = rhs.factors_ ∧ (lhs.assign rhs).keys_ = rhs.keys_ ∧
      (lhs.assign rhs).discreteKeys_ = rhs.discreteKeys_ ∧ (lhs.assign rhs).dk_ = rhs.dk_ :=
  ⟨rfl, rfl, rfl, rfl⟩

/-- The flag of the target is the one it had before the assignment. -/
theorem assign_normalized (lhs rhs : DCMixtureFactor F) :
    (lhs.assign rhs).normalized_ = lhs.normalized_ := rfl

/-- When the two flags agree beforehand, the target becomes the source. -/
theorem assign_eq_of_normalized_eq (lhs rhs : DCMixtureFactor F)
    (h : lhs.normalized_ = rhs.normalized_) : lhs.assign rhs = rhs := by
  cases lhs
  cases rhs
  simp only [DCMixtureFactor.assign] at *
  simp [h]

/-! ### Doubles with their special values -/

/-- Where both logarithms have a positive argument, the constant evaluated in
doubles is the finite number computed in the field. -/
theorem ieee_constant_of_pos [LinearOrderedField R] (C : NonlinearFactorType F V G R)
    (M : CMath R) (factor : F) (values : V) (hpi : 0 < M.pi)
    (hdet : 0 < (infoMat C factor values).determinant) :
    IEEE.nonlinearFactorLogNormalizingConstant C M factor values =
      .finite (nonlinearFactorLogNormalizingConstant C M factor values) := by
  have h2 : (0 : R) < 2 * M.pi := by positivity
  simp [IEEE.nonlinearFactorLogNormalizingConstant, nonlinearFactorLogNormalizingConstant,
    Double.log, Double.mulNat, Double.half, Double.neg, Double.sub, Double.add, h2, hdet]
  ring

/-- At determinant zero the logarithm is `-inf` and the constant is `+inf`. -/
theorem ieee_constant_of_det_zero [LinearOrderedField R] (C : NonlinearFactorType F V G R)
    (M : CMath R) (factor : F) (values : V) (hpi : 0 < M.pi)
    (hdet : (infoMat C factor values).determinant = 0) :
    IEEE.nonlinearFactorLogNormalizingConstant C M factor values = .posInf := by
  have h2 : (0 : R) < 2 * M.pi := by positivity
  simp [IEEE.nonlinearFactorLogNormalizingConstant, Double.log, Double.mulNat, Double.half,
    Double.neg, Double.sub, Double.add, h2, hdet]

/-- At a negative determinant the logarithm is NaN and so is the constant. -/
theorem ieee_constant_of_det_neg [LinearOrderedField R] (C : NonlinearFactorType F V G R)
    (M : CMath R) (factor : F) (values : V) (hpi : 0 < M.pi)
    (hdet : (infoMat C factor values).determinant < 0) :
    IEEE.nonlinearFactorLogNormalizingConstant C M factor values = .nan := by
  have h2 : (0 : R) < 2 * M.pi := by positivity
  have hn : ¬ 0 < (infoMat C factor values).determinant := not_lt.mpr hdet.le
  simp [IEEE.nonlinearFactorLogNormalizingConstant, Double.log, Double.mulNat, Double.half,
    Double.neg, Double.sub, Double.add, h2, hn, hdet.ne]

theorem ieee_error_unnormalized [LinearOrderedField R] (C : NonlinearFactorType F V G R)
    (M : CMath R) (m : DCMixtureFactor F) (assignment : Nat) (x : V) (a : DiscreteValues)
    (f f' : F) (hn : m.normalized_ = false) (hsel : m.factors_.select a = .ok f)
    (hget : m.factors_.get assignment = .ok f') :
    IEEE.error C M m assignment x a =
      .ok (Double.add (.finite (C.error f x))
        (IEEE.nonlinearFactorLogNormalizingConstant C M f' x)) := by
  simp [IEEE.error, hsel, hn, hget, bind, Except.bind, pure, Except.pure]

/-- Where both logarithms have a positive argument, `error` evaluated in
doubles returns the finite number computed in the field. -/
theorem ieee_error_of_pos [LinearOrderedField R] (C : NonlinearFactorType F V G R)
    (M : CMath R) (m : DCMixtureFactor F) (assignment : Nat) (x : V) (a : DiscreteValues)
    (f f' : F) (hn : m.normalized_ = false) (hsel : m.factors_.select a = .ok f)
    (hget : m.factors_.get assignment = .ok f') (hpi : 0 < M.pi)
    (hdet : 0 < (infoMat C f' x).determinant) :
    IEEE.error C M m assignment x a = .ok (.finite (C.error f x +
        nonlinearFactorLogNormalizingConstant C M f' x)) ∧
      DCMixtureFactor.error C M m assignment x a = .ok (C.error f x +
        nonlinearFactorLogNormalizingConstant C M f' x) := by
  refine ⟨?_, error_unnormalized C M m assignment x a f f' hn hsel hget⟩
  rw [ieee_error_unnormalized C M m assignment x a f f' hn hsel hget,
    ieee_constant_of_pos C M f' x hpi hdet]
  rfl

/-! ### Bounds on the logarithm of `2π` -/

theorem exp_lt_two_pi : Real.exp (1.8376 : ℝ) < 2 * Real.pi := by
  have hhalf : Real.exp (0.9188 : ℝ) < 2.5064 := by
    have h := Real.exp_bound' (x := (0.9188 : ℝ)) (by norm_num) (by norm_num) (n := 8)
      (by norm_num)
    refine lt_of_le_of_lt h ?_
    norm_num [Finset.sum_range_succ, Nat.factorial]
  have hsq : Real.exp (1.8376 : ℝ) = Real.exp 0.9188 * Real.exp 0.9188 := by
    rw [← Real.exp_add]; norm_num
  have hpos : 0 < Real.exp (0.9188 : ℝ) := Real.exp_pos _
  have hpi := Real.pi_gt_d6
  rw [hsq]
  nlinarith

theorem two_pi_lt_exp : 2 * Real.pi < Real.exp (1.838 : ℝ) := by
  have h := Real.sum_le_exp_of_nonneg (x := (1.838 : ℝ)) (by norm_num) 12
  have hsum : (6.283186 : ℝ) < ∑ i ∈ Finset.range 12, (1.838 : ℝ) ^ i / (Nat.factorial i) := by
    norm_num [Finset.sum_range_succ, Nat.factorial]
  have hpi := Real.pi_lt_d6
  linarith

theorem log_two_pi_gt : (1.8376 : ℝ) < Real.log (2 * Real.pi) := by
  rw [Real.lt_log_iff_exp_lt (by positivity)]
  exact exp_lt_two_pi

theorem log_two_pi_lt : Real.log (2 * Real.pi) < (1.838 : ℝ) := by
  rw [Real.log_lt_iff_lt_exp (by positivity)]
  exact two_pi_lt_exp

end Facts

/-! ## The normalizing constant -/

section NormalizingConstant

variable {F V G R : Type}

/-- C2: for a component whose noise model is Gaussian with information matrix
`Λ` of positive determinant, `nonlinearFactorLogNormalizingConstant` is
`-(d·log(2π))/2 - log(det Λ)/2` with `d` the dimension of the component, and
the result is the same at all continuous values. -/
theorem C2_gaussian_log_normalizing_constant [LinearOrderedField R]
    (C : NonlinearFactorType F V G R) (M : CMath R) (factor : F) (Λ : Mat R) (values : V)
    (hGaussian : C.noiseModel factor = some (.gaussian Λ)) (hdet : 0 < Λ.determinant) :
    nonlinearFactorLogNormalizingConstant C M factor values =
        -((C.dim factor : R) * M.log (2 * M.pi)) / 2 - M.log Λ.determinant / 2 ∧
      ∀ values' : V, nonlinearFactorLogNormalizingConstant C M factor values' =
        nonlinearFactorLogNormalizingConstant C M factor values := by
  constructor
  · simp only [nonlinearFactorLogNormalizingConstant, infoMat_gaussian C factor values Λ hGaussian]
    ring
  · intro values'
    simp only [nonlinearFactorLogNormalizingConstant, infoMat_gaussian C factor _ Λ hGaussian]

/-- The Gaussian component of information 4 meets the hypotheses. -/
theorem C2_gaussian_log_normalizing_constant_witness :
    (0 : ℝ) < (Mat.scalar (4 : ℝ)).determinant ∧
      nonlinearFactorLogNormalizingConstant (priorOps ℝ) realMath (gaussianPrior 0 4) (0 : ℝ) =
        -((((priorOps ℝ).dim (gaussianPrior 0 4) : ℕ) : ℝ) * realMath.log (2 * realMath.pi)) / 2 -
          realMath.log (Mat.scalar (4 : ℝ)).determinant / 2 :=
  ⟨by simp, (C2_gaussian_log_normalizing_constant (priorOps ℝ) realMath (gaussianPrior 0 4)
    (Mat.scalar 4) 0 rfl (by simp)).1⟩

/-- C3, as stated, fails: for the univariate Gaussian component with
information scalar 2 the constant is not `-(log(2π) - log 2)/2`. -/
theorem C3_counterexample :
    (priorOps ℝ).noiseModel (gaussianPrior 0 2) = some (.gaussian (Mat.scalar 2)) ∧
      (priorOps ℝ).dim (gaussianPrior 0 2) = 1 ∧ (0 : ℝ) < 2 ∧
      nonlinearFactorLogNormalizingConstant (priorOps ℝ) realMath (gaussianPrior 0 2) (0 : ℝ) ≠
        -(Real.log (2 * Real.pi) - Real.log 2) / 2 := by
  refine ⟨rfl, rfl, by norm_num, ?_⟩
  have hlog : 0 < Real.log 2 := Real.log_pos (by norm_num)
  have hval : nonlinearFactorLogNormalizingConstant (priorOps ℝ) realMath (gaussianPrior 0 2)
      (0 : ℝ) = -(1 * Real.log (2 * Real.pi) / 2) - Real.log 2 / 2 := by
    simp [nonlinearFactorLogNormalizingConstant, infoMat, priorOps, gaussianPrior, realMath]
  rw [hval]
  intro h
  linarith

/-- C3, amended: for a univariate Gaussian component with information scalar
`λ > 0` the constant is `-(log(2π) + log λ)/2`; for `λ = 1` this is
`-log(2π)/2`, within `0.0001` of `-0.9189`. -/
theorem C3_univariate_gaussian_constant (C : NonlinearFactorType F V G ℝ) (factor : F)
    (lam : ℝ) (values : V)
    (hGaussian : C.noiseModel factor = some (.gaussian (Mat.scalar lam)))
    (hdim : C.dim factor = 1) (hpos : 0 < lam) :
    nonlinearFactorLogNormalizingConstant C realMath factor values =
        -(Real.log (2 * Real.pi) + Real.log lam) / 2 ∧
      (lam = 1 →
        nonlinearFactorLogNormalizingConstant C realMath factor values =
            -Real.log (2 * Real.pi) / 2 ∧
          |nonlinearFactorLogNormalizingConstant C realMath factor values - (-0.9189)| <
            0.0001) := by
  have hval : nonlinearFactorLogNormalizingConstant C realMath factor values =
      -(Real.log (2 * Real.pi) + Real.log lam) / 2 := by
    simp only [nonlinearFactorLogNormalizingConstant,
      infoMat_gaussian C factor values _ hGaussian, hdim, Mat.determinant_scalar, realMath]
    push_cast
    ring
  refine ⟨hval, fun hone => ?_⟩
  have hgt := log_two_pi_gt
  have hlt := log_two_pi_lt
  rw [hval, hone, Real.log_one]
  refine ⟨by ring, ?_⟩
  rw [abs_lt]
  constructor <;> linarith

/-- The Gaussian component of information 1 meets the hypotheses. -/
theorem C3_univariate_gaussian_constant_witness :
    (priorOps ℝ).noiseModel (gaussianPrior 0 1) = some (.gaussian (Mat.scalar 1)) ∧
      (0 : ℝ) < 1 ∧
      nonlinearFactorLogNormalizingConstant (priorOps ℝ) realMath (gaussianPrior 0 1) (0 : ℝ) =
        -(Real.log (2 * Real.pi) + Real.log 1) / 2 ∧
      nonlinearFactorLogNormalizingConstant (priorOps ℝ) realMath (gaussianPrior 0 1) (0 : ℝ) =
        -Real.log (2 * Real.pi) / 2 ∧
      |nonlinearFactorLogNormalizingConstant (priorOps ℝ) realMath (gaussianPrior 0 1) (0 : ℝ) -
        (-0.9189)| < 0.0001 :=
  ⟨rfl, by norm_num,
    (C3_univariate_gaussian_constant (priorOps ℝ) (gaussianPrior 0 1) 1 0 rfl rfl
      (by norm_num)).1,
    ((C3_univariate_gaussian_constant (priorOps ℝ) (gaussianPrior 0 1) 1 0 rfl rfl
      (by norm_num)).2 rfl).1,
    ((C3_univariate_gaussian_constant (priorOps ℝ) (gaussianPrior 0 1) 1 0 rfl rfl
      (by norm_num)).2 rfl).2⟩

/-- C10: for a component that is not a `NoiseModelFactor` the information
matrix put into the formula is the empty default matrix, not the information
matrix of the linearization: at such a component whose linearization has
information 4, the constant is `-(log(2π)/2)` and differs from the one for
information 4. -/
theorem C10_no_noise_model_keeps_default_matrix :
    (priorOps ℝ).noiseModel (bareFactor 0 4) = none ∧
      (infoMat (priorOps ℝ) (bareFactor 0 4) (0 : ℝ)).n = 0 ∧
      ((priorOps ℝ).information ((priorOps ℝ).linearize (bareFactor 0 4) 0)).n = 1 ∧
      infoMat (priorOps ℝ) (bareFactor 0 4) (0 : ℝ) ≠
        (priorOps ℝ).information ((priorOps ℝ).linearize (bareFactor 0 4) 0) ∧
      nonlinearFactorLogNormalizingConstant (priorOps ℝ) realMath (bareFactor 0 4) (0 : ℝ) =
        -(Real.log (2 * Real.pi) / 2) ∧
      nonlinearFactorLogNormalizingConstant (priorOps ℝ) realMath (bareFactor 0 4) (0 : ℝ) ≠
        -(1 * Real.log (2 * Real.pi) / 2) -
          Real.log ((priorOps ℝ).information
            ((priorOps ℝ).linearize (bareFactor 0 4) 0)).determinant / 2 := by
  have hval : nonlinearFactorLogNormalizingConstant (priorOps ℝ) realMath (bareFactor 0 4)
      (0 : ℝ) = -(Real.log (2 * Real.pi) / 2) := by
    simp [nonlinearFactorLogNormalizingConstant, infoMat, priorOps, bareFactor, realMath]
  refine ⟨rfl, rfl, rfl, ?_, hval, ?_⟩
  · intro h
    have hn := congrArg Mat.n h
    exact absurd hn (by decide)
  · rw [hval]
    have hlog : 0 < Real.log 4 := Real.log_pos (by norm_num)
    simp only [priorOps, bareFactor, Mat.determinant_scalar]
    intro h
    linarith

end NormalizingConstant


/-! ## The error of a mixture -/

section Error

variable {F V G R : Type}

/-- The constant of the example Gaussian component, in the real numbers. -/
theorem constant_gaussianPrior (z info x : ℝ) :
    nonlinearFactorLogNormalizingConstant (priorOps ℝ) realMath (gaussianPrior z info) x =
      -(Real.log (2 * Real.pi) / 2) - Real.log info / 2 := by
  simp [nonlinearFactorLogNormalizingConstant, infoMat, priorOps, gaussianPrior, realMath]

/-- C4, as stated, fails: a component with the zero information matrix has
determinant `0 ≤ 0`; its constant is the double `+inf`, and `error` on the
mixture that is not normalized, selects it and indexes it returns `+inf`
instead of failing. -/
theorem C4_counterexample :
    (infoMat (priorOps ℝ) (gaussianPrior 0 0) (0 : ℝ)).determinant ≤ 0 ∧
      (priorOps ℝ).noiseModel (gaussianPrior 0 0) = some (.gaussian (Mat.scalar 0)) ∧
      (pairMixture [0] (0 : ℝ) 0 0 1 false).factors_.select [(10, 0)] = .ok (gaussianPrior 0 0) ∧
      (pairMixture [0] (0 : ℝ) 0 0 1 false).factors_.get 0 = .ok (gaussianPrior 0 0) ∧
      IEEE.nonlinearFactorLogNormalizingConstant (priorOps ℝ) realMath (gaussianPrior 0 0)
        (0 : ℝ) = .posInf ∧
      IEEE.error (priorOps ℝ) realMath (pairMixture [0] 0 0 0 1 false) 0 0 [(10, 0)] =
        .ok .posInf ∧
      IEEE.error (priorOps ℝ) realMath (pairMixture [0] 0 0 0 1 false) 0 0 [(10, 0)] ≠
        .error .singularInformation := by
  have hdet : (infoMat (priorOps ℝ) (gaussianPrior 0 0) (0 : ℝ)).determinant = 0 := by
    simp [infoMat, priorOps, gaussianPrior]
  have hpi : 0 < realMath.pi := Real.pi_pos
  have hconst := ieee_constant_of_det_zero (priorOps ℝ) realMath (gaussianPrior 0 0) (0 : ℝ)
    hpi hdet
  have herr : IEEE.error (priorOps ℝ) realMath (pairMixture [0] 0 0 0 1 false) 0 0
      [(10, 0)] = .ok .posInf := by
    rw [ieee_error_unnormalized (priorOps ℝ) realMath (pairMixture [0] 0 0 0 1 false) 0 0
      [(10, 0)] (gaussianPrior 0 0) (gaussianPrior 0 0) rfl rfl rfl, hconst]
    rfl
  refine ⟨hdet.le, rfl, rfl, rfl, hconst, herr, ?_⟩
  rw [herr]
  exact fun h => Except.noConfusion h

/-- C4, amended: no check of the determinant is made and nothing fails. For a
component whose implied information matrix has determinant `≤ 0`, the constant
is the double `+inf` when the determinant is zero and NaN when it is negative,
and `error` on a mixture that is not normalized, selects this component and
indexes it returns that same special value. -/
theorem C4_singular_information_returns_value [LinearOrderedField R]
    (C : NonlinearFactorType F V G R) (M : CMath R) (m : DCMixtureFactor F) (assignment : Nat)
    (x : V) (a : DiscreteValues) (f : F) (hpi : 0 < M.pi)
    (hn : m.normalized_ = false) (hsel : m.factors_.select a = .ok f)
    (hget : m.factors_.get assignment = .ok f)
    (hdet : (infoMat C f x).determinant ≤ 0) :
    IEEE.nonlinearFactorLogNormalizingConstant C M f x =
        (if (infoMat C f x).determinant = 0 then .posInf else .nan) ∧
      IEEE.error C M m assignment x a =
        .ok (if (infoMat C f x).determinant = 0 then .posInf else .nan) := by
  rw [ieee_error_unnormalized C M m assignment x a f f hn hsel hget]
  by_cases hzero : (infoMat C f x).determinant = 0
  · rw [ieee_constant_of_det_zero C M f x hpi hzero]
    simp [hzero, Double.add]
  · have hneg : (infoMat C f x).determinant < 0 := lt_of_le_of_ne hdet hzero
    rw [ieee_constant_of_det_neg C M f x hpi hneg]
    simp [hzero, Double.add]

/-- The mixture whose first component has information `-1` meets the
hypotheses. -/
theorem C4_singular_information_returns_value_witness :
    (infoMat (priorOps ℝ) (gaussianPrior 0 (-1)) (0 : ℝ)).determinant ≤ 0 ∧
      IEEE.error (priorOps ℝ) realMath (pairMixture [0] 0 (-1) 0 1 false) 0 0 [(10, 0)] =
        .ok (if (infoMat (priorOps ℝ) (gaussianPrior 0 (-1)) (0 : ℝ)).determinant = 0
          then .posInf else .nan) :=
  ⟨by simp [infoMat, priorOps, gaussianPrior],
    (C4_singular_information_returns_value (priorOps ℝ) realMath
      (pairMixture [0] 0 (-1) 0 1 false) 0 0 [(10, 0)] (gaussianPrior 0 (-1)) Real.pi_pos
      rfl rfl rfl (by simp [infoMat, priorOps, gaussianPrior])).2⟩

end Error

/-! ## Linearization -/

section Linearize

variable {F V G R : Type}

/-- On a mixture whose selector is over the single key `dk_`, for an
assignment that gives `dk_` a value within its cardinality at which a component
exists, `linearize(x, a)` returns the factor the Hybrid Linear Mixture of
`linearize(x)` stores under the assignment. -/
theorem linearize_single_key [Field R] (C : NonlinearFactorType F V G R)
    (m : DCMixtureFactor F) (x : V) (a : DiscreteValues) (v : Nat)
    (hlabels : m.factors_.labels = [m.dk_])
    (hat : DiscreteValues.atKey a m.dk_.1 = .ok v) (hcard : v < m.dk_.2)
    (hsize : v < m.factors_.size) :
    ∃ (g : G) (mixture : DCGaussianMixtureFactor G),
      DCMixtureFactor.linearize C m x a = .ok g ∧
        DCMixtureFactor.linearizeAll C m x = .ok mixture ∧
        mixture.select m.factors_.labels a = .ok g := by
  have hlen : v < m.factors_.leaves.length := hsize
  refine ⟨C.linearize (m.factors_.leaves.get ⟨v, hlen⟩) x, _, ?_, linearizeAll_eq C m x, ?_⟩
  · exact linearize_eq C m x a v _ hat (DecisionTree.get_of_lt _ v hsize)
  · rw [hlabels]
    refine DecisionTree.select_single m.dk_ _ a v _ ((atKey_eq_ok_iff a _ v).mp hat) hcard ?_
    simp [List.getElem?_eq_getElem hlen]

/-- C6: `linearize(x)` returns a Hybrid Linear Mixture whose list of linear
factors has `size()` entries, the `i`-th being the linearization at `x` of the
`i`-th component of the selector, built over the continuous keys and the
discrete key of the mixture factor. -/
theorem C6_linearize_all_covers_every_leaf [Field R] (C : NonlinearFactorType F V G R)
    (m : DCMixtureFactor F) (x : V) :
    ∃ mixture : DCGaussianMixtureFactor G,
      DCMixtureFactor.linearizeAll C m x = .ok mixture ∧
        mixture.factors_.length = m.factors_.size ∧
        (∀ i : Nat, i < m.factors_.size →
          ∃ f : F, m.factors_.get i = .ok f ∧ mixture.factors_[i]? = some (C.linearize f x)) ∧
        mixture.factors_ = m.factors_.leaves.map (fun f => C.linearize f x) ∧
        mixture.keys_ = m.keys_ ∧ mixture.dk_ = m.dk_ := by
  refine ⟨_, linearizeAll_eq C m x, ?_, ?_, rfl, rfl, rfl⟩
  · simp [DecisionTree.size]
  · intro i hi
    have hlen : i < m.factors_.leaves.length := hi
    refine ⟨_, DecisionTree.get_of_lt _ i hi, ?_⟩
    simp [List.getElem?_eq_getElem hlen]

/-- C9: on the mixture over the two binary keys 10 and 11 that indexes by key
10, the assignment 10 ↦ 0 has no value for key 11; `error` fails, but
`linearize(x, a)` returns the linearization of the first component. The same
happens with the keys exchanged. -/
theorem C9_linearize_reads_one_key :
    ((11, 2) : DiscreteKey) ∈ (twoKeyMixture ℝ (10, 2)).discreteKeys_ ∧
      List.lookup 11 ([(10, 0)] : DiscreteValues) = none ∧
      (∀ assignment : Nat,
        DCMixtureFactor.error (priorOps ℝ) realMath (twoKeyMixture ℝ (10, 2)) assignment 0
          [(10, 0)] = .error .undefinedAssignment) ∧
      DCMixtureFactor.linearize (priorOps ℝ) (twoKeyMixture ℝ (10, 2)) 0 [(10, 0)] =
        .ok ((priorOps ℝ).linearize (gaussianPrior 0 1) 0) ∧
      ((10, 2) : DiscreteKey) ∈ (twoKeyMixture ℝ (11, 2)).discreteKeys_ ∧
      List.lookup 10 ([(11, 0)] : DiscreteValues) = none ∧
      (∀ assignment : Nat,
        DCMixtureFactor.error (priorOps ℝ) realMath (twoKeyMixture ℝ (11, 2)) assignment 0
          [(11, 0)] = .error .undefinedAssignment) ∧
      DCMixtureFactor.linearize (priorOps ℝ) (twoKeyMixture ℝ (11, 2)) 0 [(11, 0)] =
        .ok ((priorOps ℝ).linearize (gaussianPrior 0 1) 0) := by
  refine ⟨by simp [twoKeyMixture], rfl, ?_, ?_, by simp [twoKeyMixture], rfl, ?_, ?_⟩
  · exact fun assignment => error_of_select_error _ _ _ assignment _ _ _ rfl
  · exact linearize_eq _ _ _ _ 0 _ rfl rfl
  · exact fun assignment => error_of_select_error _ _ _ assignment _ _ _ rfl
  · exact linearize_eq _ _ _ _ 0 _ rfl rfl

end Linearize

/-! ## Equality -/

section Equality

/-- C7: the tolerance passed to `equals` is not handed to the comparison of the
components. The two mixtures hold the same two components in opposite order;
at position 0 the components are not equal within the tolerance `1e-10`, yet
`equals` with that tolerance returns `true`, the components being equal within
the default `1e-9`. -/
theorem C7_equals_ignores_tolerance :
    (pairMixture [0] (0 : ℚ) 1 (1 / 2000000000) 1 false).factors_.get 0 =
        .ok (gaussianPrior 0 1) ∧
      (pairMixture [0] (1 / 2000000000 : ℚ) 1 0 1 false).factors_.get 0 =
        .ok (gaussianPrior (1 / 2000000000) 1) ∧
      (priorOps ℚ).equals (gaussianPrior 0 1) (gaussianPrior (1 / 2000000000) 1)
        (1 / 10000000000) = false ∧
      DCMixtureFactor.equals (priorOps ℚ) (pairMixture [0] 0 1 (1 / 2000000000) 1 false)
        (.mixture (pairMixture [0] (1 / 2000000000) 1 0 1 false)) (1 / 10000000000) =
        .ok true := by
  refine ⟨rfl, rfl, ?_, ?_⟩
  · simp [priorOps, gaussianPrior]
    norm_num [abs_of_pos]
  · simp [DCMixtureFactor.equals, pairMixture, equalsLoop, stdEqual, DecisionTree.size,
      DecisionTree.get, priorOps, gaussianPrior, bind, Except.bind, pure, Except.pure]
    norm_num [abs_of_pos, abs_of_neg]

/-- C8: the continuous keys `[1]` are a strict prefix of `[1, 2]`; the two
mixtures differ in nothing else, and `equals` of the first with the second
returns `true`, while `equals` of the second with the first reads past the end
of the shorter key sequence. -/
theorem C8_equals_accepts_key_prefix :
    (pairMixture [1] (0 : ℚ) 1 1 4 false).keys_ ≠ (pairMixture [1, 2] (0 : ℚ) 1 1 4 false).keys_ ∧
      DCMixtureFactor.equals (priorOps ℚ) (pairMixture [1] 0 1 1 4 false)
        (.mixture (pairMixture [1, 2] 0 1 1 4 false)) (1 / 1000000000) = .ok true ∧
      DCMixtureFactor.equals (priorOps ℚ) (pairMixture [1, 2] 0 1 1 4 false)
        (.mixture (pairMixture [1] 0 1 1 4 false)) (1 / 1000000000) =
        .error .indexOutOfRange := by
  refine ⟨by simp [pairMixture], ?_, ?_⟩
  · simp [DCMixtureFactor.equals, pairMixture, equalsLoop, stdEqual, DecisionTree.size,
      DecisionTree.get, priorOps, gaussianPrior, bind, Except.bind, pure, Except.pure]
  · simp [DCMixtureFactor.equals, pairMixture, equalsLoop, stdEqual, DecisionTree.size,
      DecisionTree.get, priorOps, gaussianPrior, bind, Except.bind, pure, Except.pure]

end Equality

/-! ## Copy assignment -/

section Assignment

/-- C11: copy assignment leaves the flag of the target as it was. The target
is normalized, the source is not; after the assignment the target holds the
keys and the components of the source but is still normalized, `equals` of the
target with the source returns `false`, and under the assignment 10 ↦ 1 the
target's error is the raw error `1/2` while the source's error adds the
normalizing constant (of the selected component when the index of `error` is
1), so that the two differ at every index. -/
theorem C11_assignment_keeps_normalized_flag :
    ((pairMixture [7] (5 : ℝ) 1 6 1 true).assign (pairMixture [0] 0 1 1 4 false)).factors_ =
        (pairMixture [0] (0 : ℝ) 1 1 4 false).factors_ ∧
      ((pairMixture [7] (5 : ℝ) 1 6 1 true).assign (pairMixture [0] 0 1 1 4 false)).discreteKeys_ =
        (pairMixture [0] (0 : ℝ) 1 1 4 false).discreteKeys_ ∧
      ((pairMixture [7] (5 : ℝ) 1 6 1 true).assign (pairMixture [0] 0 1 1 4 false)).normalized_ =
        true ∧
      (pairMixture [0] (0 : ℝ) 1 1 4 false).normalized_ = false ∧
      DCMixtureFactor.equals (priorOps ℝ)
          ((pairMixture [7] 5 1 6 1 true).assign (pairMixture [0] 0 1 1 4 false))
          (.mixture (pairMixture [0] 0 1 1 4 false)) (1 / 1000000000) = .ok false ∧
      (∀ assignment : Nat, DCMixtureFactor.error (priorOps ℝ) realMath
          ((pairMixture [7] 5 1 6 1 true).assign (pairMixture [0] 0 1 1 4 false)) assignment 0
          [(10, 1)] = .ok (1 / 2)) ∧
      DCMixtureFactor.error (priorOps ℝ) realMath (pairMixture [0] 0 1 1 4 false) 1 0
          [(10, 1)] =
        .ok (1 / 2 + (-(Real.log (2 * Real.pi) / 2) - Real.log 4 / 2)) ∧
      (∀ assignment : Nat, DCMixtureFactor.error (priorOps ℝ) realMath
          ((pairMixture [7] 5 1 6 1 true).assign (pairMixture [0] 0 1 1 4 false)) assignment 0
          [(10, 1)] ≠
        DCMixtureFactor.error (priorOps ℝ) realMath (pairMixture [0] 0 1 1 4 false) assignment 0
          [(10, 1)]) := by
  have hlhs : ∀ assignment : Nat, DCMixtureFactor.error (priorOps ℝ) realMath
      ((pairMixture [7] 5 1 6 1 true).assign (pairMixture [0] 0 1 1 4 false)) assignment 0
      [(10, 1)] = .ok (1 / 2) := by
    intro assignment
    rw [error_normalized (priorOps ℝ) realMath
      ((pairMixture [7] 5 1 6 1 true).assign (pairMixture [0] 0 1 1 4 false)) assignment 0
      [(10, 1)] (gaussianPrior 1 4) rfl rfl]
    simp [priorOps, gaussianPrior]
  have hraw : (priorOps ℝ).error (gaussianPrior 1 4) 0 = 1 / 2 := by
    simp [priorOps, gaussianPrior]
  have hzero : DCMixtureFactor.error (priorOps ℝ) realMath (pairMixture [0] 0 1 1 4 false) 0 0
      [(10, 1)] = .ok (1 / 2 + (-(Real.log (2 * Real.pi) / 2) - Real.log 1 / 2)) := by
    rw [error_unnormalized (priorOps ℝ) realMath (pairMixture [0] 0 1 1 4 false) 0 0 [(10, 1)]
      (gaussianPrior 1 4) (gaussianPrior 0 1) rfl rfl rfl, constant_gaussianPrior, hraw]
  have hone : DCMixtureFactor.error (priorOps ℝ) realMath (pairMixture [0] 0 1 1 4 false) 1 0
      [(10, 1)] = .ok (1 / 2 + (-(Real.log (2 * Real.pi) / 2) - Real.log 4 / 2)) := by
    rw [error_unnormalized (priorOps ℝ) realMath (pairMixture [0] 0 1 1 4 false) 1 0 [(10, 1)]
      (gaussianPrior 1 4) (gaussianPrior 1 4) rfl rfl rfl, constant_gaussianPrior, hraw]
  have hpi : 0 < Real.log (2 * Real.pi) := by
    have := log_two_pi_gt
    linarith
  refine ⟨rfl, rfl, rfl, rfl, ?_, hlhs, hone, ?_⟩
  · simp [DCMixtureFactor.equals, DCMixtureFactor.assign, pairMixture, equalsLoop, stdEqual,
      DecisionTree.size, DecisionTree.get, priorOps, gaussianPrior, bind, Except.bind, pure,
      Except.pure]
  · intro assignment
    rw [hlhs assignment]
    match assignment with
    | 0 =>
      rw [hzero]
      intro h
      have h' := Except.ok.inj h
      rw [Real.log_one] at h'
      linarith
    | 1 =>
      rw [hone]
      intro h
      have h' := Except.ok.inj h
      have hfour : 0 < Real.log 4 := Real.log_pos (by norm_num)
      linarith
    | n + 2 =>
      rw [error_unnormalized_out_of_range (priorOps ℝ) realMath (pairMixture [0] 0 1 1 4 false)
        (n + 2) 0 [(10, 1)] (gaussianPrior 1 4) rfl rfl rfl]
      exact fun h => Except.noConfusion h

end Assignment

end gtsam
